import Mathlib

/-!
# kube_pod_resource_exporter: a verification development of `scraper.go`

The exporter lists every pod of a cluster, and for each container writes four
gauges (CPU request, memory request, CPU limit, memory limit) into two
process-wide gauge families that are served over HTTP.

Layout of this file:

* machine integers (`int64` wrap-around, truncated division, `float64` conversion);
* `resource.Quantity` of the Kubernetes client library (its `int64Amount` form);
* the Kubernetes pod types that `runOnce` reads;
* the two gauge families and `runOnce`;
* `newKubeClient` and the sequential part of `main`;
* the shutdown race between `main` and the signal goroutine, as a step relation;
* theorems.
-/

namespace Scraper

/-! ## Machine integers -/

/-- Least `int64`. -/
def minInt64 : Int := -(2 : Int) ^ 63

/-- Greatest `int64`. -/
def maxInt64 : Int := (2 : Int) ^ 63 - 1

/-- Range test of `int64`. -/
def inInt64 (x : Int) : Prop := minInt64 ≤ x ∧ x ≤ maxInt64

instance (x : Int) : Decidable (inInt64 x) := by
  unfold inInt64; exact inferInstance

/-- Two's complement reduction of a mathematical integer to `int64`: what Go's
`int64` arithmetic leaves after an overflow. -/
def wrap64 (x : Int) : Int := (x + 2 ^ 63) % 2 ^ 64 - 2 ^ 63

/-- Go's `a * b` on `int64`. -/
def mul64 (a b : Int) : Int := wrap64 (a * b)

/-- Go's `a / b` on `int64` for a non-zero constant `b`: the quotient truncated
toward zero. -/
def div64 (a b : Int) : Int := Int.tdiv a b

/-- Go's `a % b` on `int64`: the remainder of the truncated division. -/
def mod64 (a b : Int) : Int := Int.tmod a b

/-- Number of low bits that a `float64` drops from a magnitude `m`: the least `e`
with `m / 2 ^ e < 2 ^ 53`. The fuel bounds the search; 64 is enough for any
64-bit magnitude. -/
def float64Shift : Nat → Nat → Nat
  | 0, _ => 0
  | fuel + 1, m => if m < 2 ^ 53 then 0 else float64Shift fuel (m / 2) + 1

/-- Round a magnitude to the nearest multiple of `2 ^ e`, ties to the even
multiple (the IEEE 754 default rounding that Go's conversion uses). -/
def roundTiesEven (m e : Nat) : Nat :=
  let q := m / 2 ^ e
  let r := m % 2 ^ e
  let half := 2 ^ e / 2
  if r < half then q * 2 ^ e
  else if half < r then (q + 1) * 2 ^ e
  else if r = 0 then q * 2 ^ e
  else if q % 2 = 0 then q * 2 ^ e
  else (q + 1) * 2 ^ e

/-- Go's conversion `float64(x)` of an `int64`, given by the exact value of the
resulting double. That value is always an integer: `x` itself when
`|x| ≤ 2 ^ 53`, otherwise `x` rounded to 53 significant bits. -/
def float64OfInt64 (x : Int) : Int :=
  let m := x.natAbs
  let r : Int := (roundTiesEven m (float64Shift 64 m) : Nat)
  if x < 0 then -r else r

/-! ## `resource.Quantity`

`k8s.io/apimachinery/pkg/api/resource` is a dependency of the exporter, not part
of it. The definitions of this section follow that library's `int64Amount`
representation of a quantity: a value `value * 10 ^ scale` with `value` an `int64`
and `scale` an `int32`, both kept as integers here; the products that can leave
the `int64` range are reduced with `wrap64`. The parser produces this
representation for every quantity of at most 18 significant digits that is no
finer than `10 ^ (-9)`; the library's arbitrary-precision fallback is outside this
development. -/

/-- A quantity `value * 10 ^ scale` (`resource.int64Amount`). -/
structure Quantity where
  value : Int
  scale : Int
  deriving DecidableEq, Repr

/-- The zero quantity, `resource.Quantity{}`. -/
def Quantity.zero : Quantity := ⟨0, 0⟩

/-- Library function `int64MultiplyScale(a, b)`: `a * b` and `true`, or `0` and
`false` when the product overflows. -/
def int64MultiplyScale (a b : Int) : Int × Bool :=
  if a = 0 ∨ a = 1 then (mul64 a b, true)
  else if a = minInt64 ∧ b ≠ 1 then (0, false)
  else
    let c := mul64 a b
    if div64 c b ≠ a then (0, false) else (c, true)

/-- The default branch of `positiveScaleInt64`: multiply by ten `n` times,
giving up at the first overflow. -/
def positiveScaleLoop : Nat → Int → Int × Bool
  | 0, value => (value, true)
  | n + 1, value =>
    match int64MultiplyScale value 10 with
    | (v, true) => positiveScaleLoop n v
    | (_, false) => (0, false)

/-- Library function `positiveScaleInt64(base, scale)`: `base * 10 ^ scale`, with
`false` (and result `0`) on overflow. The library has dedicated multipliers for the
scales 1, 2, 3, 6 and 9 and a loop for the others. -/
def positiveScaleInt64 (base : Int) (scale : Nat) : Int × Bool :=
  match scale with
  | 0 => (base, true)
  | 1 => int64MultiplyScale base 10
  | 2 => int64MultiplyScale base 100
  | 3 => int64MultiplyScale base 1000
  | 6 => int64MultiplyScale base 1000000
  | 9 => int64MultiplyScale base 1000000000
  | n => positiveScaleLoop n base

/-- The loop of `negativeScaleInt64`: `n` divisions by ten, remembering in
`fraction` whether a non-zero digit was dropped, and leaving early once the value
reaches zero. The result is rounded away from zero when inexact. -/
def negativeScaleLoop (base : Int) : Nat → Int → Bool → Int × Bool
  | 0, value, fraction =>
    if fraction then (if 0 < base then (value + 1, false) else (value - 1, false))
    else (value, true)
  | n + 1, value, fraction =>
    let fraction' := fraction || decide (mod64 value 10 ≠ 0)
    let value' := div64 value 10
    if value' = 0 then
      if fraction' then (if 0 < base then (1, false) else (-1, false))
      else (0, true)
    else negativeScaleLoop base n value' fraction'

/-- Library function `negativeScaleInt64(base, scale)`: `base / 10 ^ scale` rounded
away from zero, with `false` when inexact. -/
def negativeScaleInt64 (base : Int) (scale : Nat) : Int × Bool :=
  if scale = 0 then (base, true) else negativeScaleLoop base scale base false

/-- Library method `int64Amount.AsScaledInt64(scale)`: the amount in units of
`10 ^ scale`. -/
def Quantity.AsScaledInt64 (a : Quantity) (scale : Int) : Int × Bool :=
  if a.scale < scale then
    ((negativeScaleInt64 a.value (scale - a.scale).toNat).1, true)
  else positiveScaleInt64 a.value (a.scale - scale).toNat

/-- Library method `Quantity.ScaledValue(scale)`: the first component of
`AsScaledInt64`, the overflow flag being dropped. -/
def Quantity.ScaledValue (q : Quantity) (scale : Int) : Int :=
  (q.AsScaledInt64 scale).1

/-- Library method `Quantity.Value()`. -/
def Quantity.Value (q : Quantity) : Int := q.ScaledValue 0

/-- Library method `Quantity.MilliValue()`. -/
def Quantity.MilliValue (q : Quantity) : Int := q.ScaledValue (-3)

/-! ## Kubernetes pod types read by `runOnce` -/

/-- Go type `v1.ResourceList`, a map from resource name to quantity, kept as an
association list that is read through `List.lookup`. -/
abbrev ResourceList := List (String × Quantity)

/-- Library method `ResourceList.Cpu()`: the entry `cpu`, or the zero quantity
when the map has none. -/
def ResourceList.Cpu (self : ResourceList) : Quantity :=
  match self.lookup "cpu" with
  | some val => val
  | none => Quantity.zero

/-- Library method `ResourceList.Memory()`: the entry `memory`, or the zero
quantity when the map has none. -/
def ResourceList.Memory (self : ResourceList) : Quantity :=
  match self.lookup "memory" with
  | some val => val
  | none => Quantity.zero

/-- Go type `v1.ResourceRequirements`. -/
structure ResourceRequirements where
  Limits : ResourceList
  Requests : ResourceList
  deriving DecidableEq, Repr

/-- Go type `v1.Container`, with the fields that the exporter reads. -/
structure Container where
  Name : String
  Resources : ResourceRequirements
  deriving DecidableEq, Repr

/-- Go type `v1.PodSpec`. -/
structure PodSpec where
  Containers : List Container
  deriving DecidableEq, Repr

/-- Go type `v1.Pod`. -/
structure Pod where
  Namespace : String
  Name : String
  Spec : PodSpec
  deriving DecidableEq, Repr

/-- The cluster client as `runOnce` sees it: `podList n` is the answer of the API
server to the `n`-th call of `kc.CoreV1().Pods("").List`, either an error or the
items of the pod list. -/
structure Clientset where
  podList : Nat → Except String (List Pod)

/-! ## The gauge families -/

/-- A `prometheus.GaugeVec`: the gauges created so far, by label values. The value
is the exact value of the stored `float64`. -/
abbrev GaugeVec := List String → Option Int

/-- The empty family, as `prometheus.NewGaugeVec` returns it. -/
def GaugeVec.empty : GaugeVec := fun _ => none

/-- The call chain `g.WithLabelValues(lvs...).Set(v)`: the gauge of `lvs` is created
when it does not exist yet, and its value becomes `v`. -/
def GaugeVec.WithLabelValuesSet (g : GaugeVec) (lvs : List String) (v : Int) : GaugeVec :=
  fun k => if k = lvs then some v else g k

/-- The two gauge families of the exporter. -/
inductive Family where
  | cpu_milli
  | memory_bytes
  deriving DecidableEq, Repr

/-- The process-wide gauges: the package variables `mContainerCPU` and
`mContainerMem`. -/
structure Registry where
  mContainerCPU : GaugeVec
  mContainerMem : GaugeVec

/-- The registry at process start. -/
def Registry.empty : Registry := ⟨GaugeVec.empty, GaugeVec.empty⟩

/-- The family `f` of a registry. -/
def Registry.gauge (r : Registry) : Family → GaugeVec
  | .cpu_milli => r.mContainerCPU
  | .memory_bytes => r.mContainerMem

/-- The label names of both families, in order. -/
def labelNames : List String := ["type", "namespace", "pod_name", "container_name"]

/-! ## `runOnce` -/

/-- The body of the inner loop of `runOnce`: the four `Set` calls for one container
of one pod, in source order. -/
def setContainer (pod : Pod) (reg : Registry) (container : Container) : Registry :=
  let reg : Registry := ⟨reg.mContainerCPU.WithLabelValuesSet
    ["request", pod.Namespace, pod.Name, container.Name]
    (float64OfInt64 container.Resources.Requests.Cpu.MilliValue), reg.mContainerMem⟩
  let reg : Registry := ⟨reg.mContainerCPU, reg.mContainerMem.WithLabelValuesSet
    ["request", pod.Namespace, pod.Name, container.Name]
    (float64OfInt64 (div64 container.Resources.Requests.Memory.MilliValue 1000))⟩
  let reg : Registry := ⟨reg.mContainerCPU.WithLabelValuesSet
    ["limit", pod.Namespace, pod.Name, container.Name]
    (float64OfInt64 container.Resources.Limits.Cpu.MilliValue), reg.mContainerMem⟩
  ⟨reg.mContainerCPU, reg.mContainerMem.WithLabelValuesSet
    ["limit", pod.Namespace, pod.Name, container.Name]
    (float64OfInt64 (div64 container.Resources.Limits.Memory.MilliValue 1000))⟩

/-- The two nested loops of `runOnce` over `pods.Items`. -/
def setPods (items : List Pod) (reg : Registry) : Registry :=
  items.foldl (fun reg pod => pod.Spec.Containers.foldl (setContainer pod) reg) reg

/-- What `runOnce` can change: the gauges, the log, and the number of list calls
made to the API server so far. -/
structure World where
  registry : Registry
  log : List String
  listCalls : Nat

/-- One poll cycle, `runOnce(kc)`: one list call; on error one log line and nothing
else; on success the four gauges of every container of every pod. -/
def runOnce (kc : Clientset) (w : World) : World :=
  match kc.podList w.listCalls with
  | .error err =>
    { w with listCalls := w.listCalls + 1, log := w.log ++ ["[ERROR] " ++ err] }
  | .ok items =>
    { w with listCalls := w.listCalls + 1, registry := setPods items w.registry }

/-- The polling goroutine of `main` after `ticks` ticks of the ticker: one cycle at
once, then one per tick. -/
def poller (kc : Clientset) (ticks : Nat) (w : World) : World :=
  (runOnce kc)^[ticks + 1] w

/-! ## The writes of one poll cycle, one by one -/

/-- One `Set` call: the family, the label values and the value written. -/
structure Update where
  family : Family
  labels : List String
  value : Int
  deriving DecidableEq, Repr

/-- Perform one `Set` call on the registry. -/
def Registry.apply (r : Registry) (u : Update) : Registry :=
  match u.family with
  | .cpu_milli => ⟨r.mContainerCPU.WithLabelValuesSet u.labels u.value, r.mContainerMem⟩
  | .memory_bytes => ⟨r.mContainerCPU, r.mContainerMem.WithLabelValuesSet u.labels u.value⟩

/-- The four `Set` calls of the loop body for one container, in source order. -/
def containerUpdates (pod : Pod) (container : Container) : List Update :=
  [ ⟨.cpu_milli, ["request", pod.Namespace, pod.Name, container.Name],
      float64OfInt64 container.Resources.Requests.Cpu.MilliValue⟩,
    ⟨.memory_bytes, ["request", pod.Namespace, pod.Name, container.Name],
      float64OfInt64 (div64 container.Resources.Requests.Memory.MilliValue 1000)⟩,
    ⟨.cpu_milli, ["limit", pod.Namespace, pod.Name, container.Name],
      float64OfInt64 container.Resources.Limits.Cpu.MilliValue⟩,
    ⟨.memory_bytes, ["limit", pod.Namespace, pod.Name, container.Name],
      float64OfInt64 (div64 container.Resources.Limits.Memory.MilliValue 1000)⟩ ]

/-- All `Set` calls of the two loops of `runOnce` over `items`, in execution order. -/
def updates (items : List Pod) : List Update :=
  items.flatMap (fun pod => pod.Spec.Containers.flatMap (containerUpdates pod))

/-- The key of a `Set` call: family and label values. -/
def Update.key (u : Update) : Family × List String := (u.family, u.labels)

/-- The value of the last `Set` call of `us` that addresses the gauge `k` of
family `f`, if there is one. -/
def lastWrite (f : Family) (k : List String) : List Update → Option Int
  | [] => none
  | u :: us =>
    match lastWrite f k us with
    | some v => some v
    | none => if u.family = f ∧ u.labels = k then some u.value else none

/-- The (namespace, pod name, container name) triples of a pod list, one per
container, in list order. -/
def labelTriples (items : List Pod) : List (String × String × String) :=
  items.flatMap (fun pod => pod.Spec.Containers.map (fun c => (pod.Namespace, pod.Name, c.Name)))

/-- The label tuples that belong to the containers of a pod list: for every
container the tuple of its requests and the tuple of its limits. -/
def labelTuples (items : List Pod) : List (List String) :=
  items.flatMap (fun pod => pod.Spec.Containers.flatMap (fun c =>
    [["request", pod.Namespace, pod.Name, c.Name], ["limit", pod.Namespace, pod.Name, c.Name]]))

/-- The four keys that one poll cycle writes for a (namespace, pod name,
container name) triple, in the order of the `Set` calls. -/
def tripleKeys (t : String × String × String) : List (Family × List String) :=
  [(.cpu_milli, ["request", t.1, t.2.1, t.2.2]), (.memory_bytes, ["request", t.1, t.2.1, t.2.2]),
   (.cpu_milli, ["limit", t.1, t.2.1, t.2.2]), (.memory_bytes, ["limit", t.1, t.2.1, t.2.2])]

/-! ## Declared values, as the specification words them -/

/-- The quantity as a whole number of units of `10 ^ unit`, when it is one. This
reads the number off the decimal notation `value * 10 ^ scale` without any
machine arithmetic. -/
def Quantity.inUnits (q : Quantity) (unit : Int) : Option Int :=
  if unit ≤ q.scale then some (q.value * 10 ^ (q.scale - unit).toNat)
  else if q.value % 10 ^ (unit - q.scale).toNat = 0 then
    some (q.value / 10 ^ (unit - q.scale).toNat)
  else none

/-- The specification's "declared CPU (milli-cores)": thousandths of a core. -/
def declaredMilliCores (q : Quantity) : Option Int := q.inUnits (-3)

/-- The specification's "declared memory (bytes)". -/
def declaredBytes (q : Quantity) : Option Int := q.inUnits 0

/-- A declared value that a gauge can hold exactly: a whole number between `0` and
`2 ^ 53`. -/
def exactlyHeld (declared : Option Int) : Prop :=
  ∃ n : Int, declared = some n ∧ 0 ≤ n ∧ n ≤ 2 ^ 53

/-! ## `newKubeClient` and `main` -/

/-- Go type `rest.Config`; the exporter only passes it on. -/
structure RestConfig where
  Host : String
  deriving DecidableEq, Repr

/-- The client library calls made by `newKubeClient`, with their outcomes:
`rest.InClusterConfig()`, the deferred loading `ClientConfig()` for a context name,
and `kubernetes.NewForConfig`. -/
structure KubeEnv where
  InClusterConfig : Except String RestConfig
  ClientConfig : String → Except String RestConfig
  NewForConfig : RestConfig → Except String Clientset

/-- Function `newKubeClient(kubeContext)`. -/
def newKubeClient (env : KubeEnv) (kubeContext : String) : Except String Clientset :=
  match (if kubeContext = "" then env.InClusterConfig else env.ClientConfig kubeContext) with
  | .error err => .error err
  | .ok kubeConfig => env.NewForConfig kubeConfig

/-- The command line after `flag.Parse`: a flag is `none` when it is absent. -/
structure Args where
  kubeContext : Option String
  scrapeInterval : Option Int

/-- Flag `kube.context`, default empty. -/
def Args.kubeContextValue (a : Args) : String := a.kubeContext.getD ""

/-- Flag `scrape.interval`, default 3600. -/
def Args.scrapeIntervalValue (a : Args) : Int := a.scrapeInterval.getD 3600

/-- The expression `time.Duration(*scrapeInterval) * time.Second`: an `int64`
count of nanoseconds. -/
def tickerPeriod (scrapeInterval : Int) : Int := mul64 scrapeInterval 1000000000

/-- What the main goroutine does, in order, up to the call that blocks it. -/
inductive Event where
  | logPrint (msg : String)
  | osExit (code : Int)
  | goPanic (msg : String)
  | newTicker (d : Int)
  | goPoller
  | handle (pattern : String)
  | signalNotify
  | goSignalHandler
  | listenAndServe (addr : String)
  deriving DecidableEq, Repr

/-- Function `main` from `flag.Parse` to `server.ListenAndServe`. `log.Fatalf` is
a log line followed by `os.Exit(1)`; `time.NewTicker` panics on a period that is
not positive. -/
def main (env : KubeEnv) (args : Args) : List Event :=
  match newKubeClient env args.kubeContextValue with
  | .error err => [.logPrint ("[ERROR] " ++ err), .osExit 1]
  | .ok _ =>
    let d := tickerPeriod args.scrapeIntervalValue
    if d ≤ 0 then [.goPanic "non-positive interval for NewTicker"]
    else [.newTicker d, .goPoller, .handle "/metrics", .signalNotify, .goSignalHandler,
      .listenAndServe ":8080"]

/-! ## Shutdown: `main` against the signal goroutine

Three facts of the Go runtime and of `net/http` are built into the steps below:
the process ends when `main` returns; `ListenAndServe` returns `ErrServerClosed`
as soon as `Shutdown` has closed the listener; `Shutdown` itself returns only once
no request is in flight. -/

/-- Where the signal goroutine of `main` stands. -/
inductive SigPC where
  | waiting
  | received
  | tickerStopped
  | inShutdown
  | shutdownReturned
  deriving DecidableEq, Repr

/-- The running process after start-up. -/
structure Proc where
  sigPending : Bool
  handler : SigPC
  listening : Bool
  tickerRunning : Bool
  inflight : Nat
  completed : Nat
  mainReturned : Bool
  deriving DecidableEq, Repr

/-- The process as `main` blocks in `ListenAndServe`. -/
def Proc.start : Proc :=
  { sigPending := false, handler := .waiting, listening := true, tickerRunning := true,
    inflight := 0, completed := 0, mainReturned := false }

/-- The atomic steps that the scheduler and the environment can take. -/
inductive Action where
  | interrupt
  | accept
  | finish
  | handlerReceive
  | handlerStopTicker
  | handlerShutdown
  | shutdownReturn
  | mainReturn
  deriving DecidableEq, Repr

/-- One step; `none` when the step is not enabled. Nothing is enabled once `main`
has returned. -/
def step (a : Action) (p : Proc) : Option Proc :=
  if p.mainReturned then none
  else
    match a with
    | .interrupt => some { p with sigPending := true }
    | .accept => if p.listening then some { p with inflight := p.inflight + 1 } else none
    | .finish =>
      if 0 < p.inflight then
        some { p with inflight := p.inflight - 1, completed := p.completed + 1 }
      else none
    | .handlerReceive =>
      if p.handler = .waiting ∧ p.sigPending then
        some { p with handler := .received, sigPending := false }
      else none
    | .handlerStopTicker =>
      if p.handler = .received then
        some { p with handler := .tickerStopped, tickerRunning := false }
      else none
    | .handlerShutdown =>
      if p.handler = .tickerStopped then
        some { p with handler := .inShutdown, listening := false }
      else none
    | .shutdownReturn =>
      if p.handler = .inShutdown ∧ p.inflight = 0 then
        some { p with handler := .shutdownReturned }
      else none
    | .mainReturn => if p.listening then none else some { p with mainReturned := true }

/-- A schedule, step after step. -/
def run : List Action → Proc → Option Proc
  | [], p => some p
  | a :: as, p =>
    match step a p with
    | some p' => run as p'
    | none => none

/-! ## Concrete inputs used by the examples -/

/-- The world at process start: empty gauges, empty log, no list call made. -/
def World.start : World := ⟨Registry.empty, [], 0⟩

/-- A client whose every list call returns the same items. -/
def Clientset.const (items : List Pod) : Clientset := ⟨fun _ => .ok items⟩

/-- A client whose every list call fails with the same error. -/
def Clientset.failing (err : String) : Clientset := ⟨fun _ => .error err⟩

/-- A client that answers the first list call with `items` and every later one
with the empty list: the pods have been deleted after the first poll. -/
def Clientset.thenEmpty (items : List Pod) : Clientset :=
  ⟨fun n => if n = 0 then .ok items else .ok []⟩

/-- A pod with one container, given by its requests and limits. -/
def Pod.single (ns name cname : String) (requests limits : ResourceList) : Pod :=
  ⟨ns, name, ⟨[⟨cname, ⟨limits, requests⟩⟩]⟩⟩

/-- The example of the specification: pod `web-1` in namespace `prod`, container
`app`, requesting `500m` CPU and `256Mi` memory, limited to `1000m` and `512Mi`. -/
def web1 : Pod :=
  Pod.single "prod" "web-1" "app"
    [("cpu", ⟨500, -3⟩), ("memory", ⟨268435456, 0⟩)]
    [("cpu", ⟨1000, -3⟩), ("memory", ⟨536870912, 0⟩)]

/-- A pod whose CPU request is `9007199254740993m`, one more than `2 ^ 53`
milli-cores. -/
def hugeCpuPod : Pod :=
  Pod.single "prod" "huge" "app" [("cpu", ⟨9007199254740993, -3⟩)] []

/-- A pod whose memory request is `10P` (ten petabytes, `10 * 10 ^ 15` bytes) and
whose memory limit is `1500m` (one and a half bytes). -/
def bigMemPod : Pod :=
  Pod.single "prod" "big" "app" [("memory", ⟨10, 15⟩)] [("memory", ⟨1500, -3⟩)]

/-- A pod whose container declares no resources at all. -/
def barePod : Pod := Pod.single "dev" "bare" "main" [] []

/-- An environment in which no in-cluster configuration is available. -/
def KubeEnv.outsideCluster : KubeEnv :=
  { InClusterConfig := .error "unable to load in-cluster configuration",
    ClientConfig := fun _ => .ok ⟨"https://localhost:6443"⟩,
    NewForConfig := fun _ => .ok (Clientset.const []) }

/-- An environment in which every library call succeeds. -/
def KubeEnv.healthy : KubeEnv :=
  { InClusterConfig := .ok ⟨"https://kubernetes.default.svc"⟩,
    ClientConfig := fun _ => .ok ⟨"https://localhost:6443"⟩,
    NewForConfig := fun _ => .ok (Clientset.const []) }

/-- The schedule in which the interrupt arrives during a request and `main`
returns right after `Shutdown` has closed the listener. -/
def interruptMidRequest : List Action :=
  [.accept, .interrupt, .handlerReceive, .handlerStopTicker, .handlerShutdown, .mainReturn]

/-- The process after `interruptMidRequest`: `main` has returned, `Shutdown` has
not, and one request is still in flight. -/
def Proc.exitedMidRequest : Proc :=
  { sigPending := false, handler := .inShutdown, listening := false, tickerRunning := false,
    inflight := 1, completed := 0, mainReturned := true }

/-! ## Registry lemmas -/

theorem setContainer_eq_foldl (pod : Pod) (reg : Registry) (container : Container) :
    setContainer pod reg container = (containerUpdates pod container).foldl Registry.apply reg :=
  rfl

theorem foldl_setContainer (pod : Pod) (cs : List Container) (reg : Registry) :
    cs.foldl (setContainer pod) reg
      = (cs.flatMap (containerUpdates pod)).foldl Registry.apply reg := by
  induction cs generalizing reg with
  | nil => rfl
  | cons c cs ih =>
    rw [List.foldl_cons, ih, List.flatMap_cons, List.foldl_append, setContainer_eq_foldl]

theorem setPods_eq_foldl (items : List Pod) (reg : Registry) :
    setPods items reg = (updates items).foldl Registry.apply reg := by
  unfold setPods updates
  induction items generalizing reg with
  | nil => rfl
  | cons p ps ih =>
    rw [List.foldl_cons, ih, List.flatMap_cons, List.foldl_append, foldl_setContainer]

theorem gauge_apply (r : Registry) (u : Update) (f : Family) (k : List String) :
    (r.apply u).gauge f k
      = if u.family = f ∧ u.labels = k then some u.value else r.gauge f k := by
  obtain ⟨uf, ul, uv⟩ := u
  cases uf <;> cases f <;>
    simp [Registry.apply, Registry.gauge, GaugeVec.WithLabelValuesSet, eq_comm]

theorem gauge_foldl (us : List Update) (r : Registry) (f : Family) (k : List String) :
    (us.foldl Registry.apply r).gauge f k
      = match lastWrite f k us with
        | some v => some v
        | none => r.gauge f k := by
  induction us generalizing r with
  | nil => rfl
  | cons u us ih =>
    rw [List.foldl_cons, ih, gauge_apply]
    simp only [lastWrite]
    cases lastWrite f k us with
    | some v => rfl
    | none =>
      by_cases h : u.family = f ∧ u.labels = k
      · simp [h]
      · simp [h]

theorem Registry.ext_gauge {r₁ r₂ : Registry}
    (h : ∀ f k, r₁.gauge f k = r₂.gauge f k) : r₁ = r₂ := by
  obtain ⟨c₁, m₁⟩ := r₁
  obtain ⟨c₂, m₂⟩ := r₂
  have hc : c₁ = c₂ := funext fun k => h .cpu_milli k
  have hm : m₁ = m₂ := funext fun k => h .memory_bytes k
  rw [hc, hm]

theorem lastWrite_eq_none {f : Family} {k : List String} {us : List Update}
    (h : (f, k) ∉ us.map Update.key) : lastWrite f k us = none := by
  induction us with
  | nil => rfl
  | cons u us ih =>
    simp only [List.map_cons, List.mem_cons, not_or] at h
    simp only [lastWrite, ih h.2]
    have : ¬ (u.family = f ∧ u.labels = k) := by
      rintro ⟨h₁, h₂⟩
      exact h.1 (by simp [Update.key, h₁, h₂])
    simp [this]

theorem lastWrite_of_nodup {us : List Update} (hn : (us.map Update.key).Nodup)
    {u : Update} (hu : u ∈ us) : lastWrite u.family u.labels us = some u.value := by
  induction us with
  | nil => cases hu
  | cons w ws ih =>
    rw [List.map_cons, List.nodup_cons] at hn
    rcases List.mem_cons.1 hu with rfl | hmem
    · have : lastWrite u.family u.labels ws = none := lastWrite_eq_none hn.1
      simp [lastWrite, this]
    · simp [lastWrite, ih hn.2 hmem]

theorem lastWrite_isSome_of_mem {us : List Update} {u : Update} (hu : u ∈ us) :
    ∃ v, lastWrite u.family u.labels us = some v := by
  induction us with
  | nil => cases hu
  | cons w ws ih =>
    rcases List.mem_cons.1 hu with rfl | hmem
    · simp only [lastWrite]
      cases lastWrite u.family u.labels ws with
      | some v => exact ⟨v, rfl⟩
      | none => exact ⟨u.value, by simp⟩
    · obtain ⟨v, hv⟩ := ih hmem
      exact ⟨v, by simp [lastWrite, hv]⟩

theorem map_key_updates (items : List Pod) :
    (updates items).map Update.key = (labelTriples items).flatMap tripleKeys := by
  unfold updates labelTriples
  induction items with
  | nil => rfl
  | cons p ps ih =>
    rw [List.flatMap_cons, List.flatMap_cons, List.map_append, List.flatMap_append, ih]
    congr 1
    generalize p.Spec.Containers = cs
    induction cs with
    | nil => rfl
    | cons c cs ihc =>
      rw [List.flatMap_cons, List.map_append, ihc, List.map_cons, List.flatMap_cons]
      rfl

theorem nodup_tripleKeys (t : String × String × String) : (tripleKeys t).Nodup := by
  simp [tripleKeys]

theorem eq_of_mem_tripleKeys {t₁ t₂ : String × String × String} {x : Family × List String}
    (h₁ : x ∈ tripleKeys t₁) (h₂ : x ∈ tripleKeys t₂) : t₁ = t₂ := by
  obtain ⟨a₁, b₁, c₁⟩ := t₁
  obtain ⟨a₂, b₂, c₂⟩ := t₂
  simp only [tripleKeys, List.mem_cons, List.mem_singleton, List.mem_nil_iff, or_false] at h₁ h₂
  rcases h₁ with rfl | rfl | rfl | rfl <;> simp at h₂ <;> simp [h₂]

theorem nodup_keys_of_nodup_triples {items : List Pod} (h : (labelTriples items).Nodup) :
    ((updates items).map Update.key).Nodup := by
  rw [map_key_updates, List.nodup_flatMap]
  refine ⟨fun t _ => nodup_tripleKeys t, ?_⟩
  refine List.Pairwise.imp ?_ h
  intro t₁ t₂ hne
  simp only [Function.onFun]
  intro x h₁ h₂
  exact hne (eq_of_mem_tripleKeys h₁ h₂)

theorem nodup_triples_of_distinct {items : List Pod}
    (hp : (items.map (fun p => (p.Namespace, p.Name))).Nodup)
    (hc : ∀ p ∈ items, (p.Spec.Containers.map (fun c => c.Name)).Nodup) :
    (labelTriples items).Nodup := by
  unfold labelTriples
  rw [List.nodup_flatMap]
  constructor
  · intro p hpm
    have := hc p hpm
    rw [List.nodup_map_iff_inj_on] at this ⊢
    · intro x hx y hy hxy
      exact this x hx y hy (by simpa using hxy)
    · exact (List.Nodup.of_map _ (hc p hpm))
    · exact (List.Nodup.of_map _ (hc p hpm))
  · rw [List.Nodup, List.pairwise_map] at hp
    refine List.Pairwise.imp ?_ hp
    intro p₁ p₂ hne
    simp only [Function.onFun]
    intro x h₁ h₂
    rw [List.mem_map] at h₁ h₂
    obtain ⟨c₁, -, rfl⟩ := h₁
    obtain ⟨c₂, -, h⟩ := h₂
    apply hne
    simp only [Prod.mk.injEq] at h ⊢
    exact ⟨h.1.symm, h.2.1.symm⟩

theorem mem_updates {items : List Pod} {pod : Pod} {c : Container}
    (hp : pod ∈ items) (hc : c ∈ pod.Spec.Containers) {u : Update}
    (hu : u ∈ containerUpdates pod c) : u ∈ updates items := by
  unfold updates
  exact List.mem_flatMap.2 ⟨pod, hp, List.mem_flatMap.2 ⟨c, hc, hu⟩⟩

theorem key_mem_iff_labelTuples (items : List Pod) (f : Family) (k : List String) :
    (f, k) ∈ (updates items).map Update.key ↔ k ∈ labelTuples items := by
  simp only [updates, labelTuples, List.mem_map, List.mem_flatMap, containerUpdates,
    List.mem_cons, List.mem_singleton, List.mem_nil_iff, or_false, Update.key]
  constructor
  · rintro ⟨u, ⟨p, hp, c, hc, hu⟩, hk⟩
    refine ⟨p, hp, c, hc, ?_⟩
    rcases hu with rfl | rfl | rfl | rfl <;> simp at hk <;> simp [← hk.2]
  · rintro ⟨p, hp, c, hc, hk⟩
    cases f with
    | cpu_milli =>
      rcases hk with rfl | rfl
      · exact ⟨_, ⟨p, hp, c, hc, Or.inl rfl⟩, rfl⟩
      · exact ⟨_, ⟨p, hp, c, hc, Or.inr (Or.inr (Or.inl rfl))⟩, rfl⟩
    | memory_bytes =>
      rcases hk with rfl | rfl
      · exact ⟨_, ⟨p, hp, c, hc, Or.inr (Or.inl rfl)⟩, rfl⟩
      · exact ⟨_, ⟨p, hp, c, hc, Or.inr (Or.inr (Or.inr rfl))⟩, rfl⟩

/-! ## Machine arithmetic lemmas -/

theorem wrap64_of_inRange {x : Int} (h₁ : -(2 : Int) ^ 63 ≤ x) (h₂ : x < 2 ^ 63) :
    wrap64 x = x := by
  unfold wrap64
  norm_num at h₁ h₂ ⊢
  omega

theorem float64Shift_of_lt (fuel m : Nat) (h : m < 2 ^ 53) : float64Shift fuel m = 0 := by
  cases fuel with
  | zero => rfl
  | succ n => rw [float64Shift, if_pos h]

theorem roundTiesEven_zero (m : Nat) : roundTiesEven m 0 = m := by
  simp [roundTiesEven, Nat.mod_one]

theorem float64OfInt64_exact {n : Int} (h₀ : 0 ≤ n) (h : n ≤ 2 ^ 53) : float64OfInt64 n = n := by
  rcases lt_or_eq_of_le h with hlt | rfl
  · have hm : n.natAbs < 2 ^ 53 := by
      have : (n.natAbs : Int) = n := Int.natAbs_of_nonneg h₀
      have h2 : ((2 ^ 53 : Nat) : Int) = 2 ^ 53 := by norm_num
      omega
    unfold float64OfInt64
    simp only [float64Shift_of_lt 64 _ hm, roundTiesEven_zero]
    rw [if_neg (not_lt.2 h₀)]
    exact Int.natAbs_of_nonneg h₀
  · decide

theorem int64MultiplyScale_exact {a b : Int} (ha : 0 ≤ a) (hb : 0 < b)
    (h : a * b < 2 ^ 63) : int64MultiplyScale a b = (a * b, true) := by
  have hab : 0 ≤ a * b := Int.mul_nonneg ha (le_of_lt hb)
  have hw : mul64 a b = a * b := by
    unfold mul64
    have hneg : -(2 : Int) ^ 63 ≤ 0 := by norm_num
    exact wrap64_of_inRange (le_trans hneg hab) h
  unfold int64MultiplyScale
  by_cases h01 : a = 0 ∨ a = 1
  · rw [if_pos h01, hw]
  · rw [if_neg h01]
    have hmin : ¬ (a = minInt64 ∧ b ≠ 1) := by
      rintro ⟨hm, -⟩
      rw [hm] at ha
      exact absurd ha (by decide)
    rw [if_neg hmin]
    simp only [hw, div64]
    rw [Int.mul_tdiv_cancel a (ne_of_gt hb)]
    simp

theorem positiveScaleLoop_exact (n : Nat) {a : Int} (ha : 0 ≤ a)
    (h : a * 10 ^ n < 2 ^ 63) : positiveScaleLoop n a = (a * 10 ^ n, true) := by
  induction n generalizing a with
  | zero => simp [positiveScaleLoop]
  | succ n ih =>
    have hpos : (0 : Int) < 10 ^ n := by positivity
    have hstep : a * 10 < 2 ^ 63 := by
      have : a * 10 ≤ a * 10 ^ (n + 1) := by
        rw [pow_succ, ← mul_assoc, mul_right_comm]
        exact le_mul_of_one_le_right (by positivity) (by omega)
      omega
    have h' : a * 10 * 10 ^ n < 2 ^ 63 := by
      rw [pow_succ, ← mul_assoc, mul_right_comm] at h
      exact h
    simp only [positiveScaleLoop, int64MultiplyScale_exact ha (by norm_num) hstep]
    rw [ih (by positivity) h', pow_succ, ← mul_assoc, mul_right_comm]

theorem positiveScaleInt64_exact (k : Nat) {a : Int} (ha : 0 ≤ a)
    (h : a * 10 ^ k < 2 ^ 63) : positiveScaleInt64 a k = (a * 10 ^ k, true) := by
  unfold positiveScaleInt64
  split
  · simp
  · exact int64MultiplyScale_exact ha (by norm_num) (by simpa using h)
  · exact int64MultiplyScale_exact ha (by norm_num) (by simpa using h)
  · exact int64MultiplyScale_exact ha (by norm_num) (by simpa using h)
  · exact int64MultiplyScale_exact ha (by norm_num) (by simpa using h)
  · exact int64MultiplyScale_exact ha (by norm_num) (by simpa using h)
  · exact positiveScaleLoop_exact _ ha h

theorem negativeScaleLoop_exact (base : Int) (n : Nat) {value : Int} (hv : 0 ≤ value)
    (hd : (10 : Int) ^ n ∣ value) :
    (negativeScaleLoop base n value false).1 = value / 10 ^ n := by
  induction n generalizing value with
  | zero => simp [negativeScaleLoop]
  | succ n ih =>
    obtain ⟨c, hc⟩ := hd
    have hpow : (0 : Int) < 10 ^ n := by positivity
    have hval : value = 10 * (10 ^ n * c) := by rw [hc, pow_succ]; ring
    have hten : value / 10 = 10 ^ n * c := by
      rw [hval, Int.mul_ediv_cancel_left _ (by norm_num)]
    have hmod : mod64 value 10 = 0 := by
      unfold mod64
      rw [Int.tmod_eq_emod hv (by norm_num), hval]
      exact Int.mul_emod_right _ _
    have hdiv : div64 value 10 = 10 ^ n * c := by
      unfold div64
      rw [Int.tdiv_eq_ediv hv (by norm_num), hten]
    have hquot : value / 10 ^ (n + 1) = c := by
      rw [hc, Int.mul_ediv_cancel_left _ (by positivity)]
    have hc0 : 0 ≤ 10 ^ n * c := by rw [← hten]; exact Int.ediv_nonneg hv (by norm_num)
    simp only [negativeScaleLoop, hmod, hdiv, hquot]
    by_cases hz : (10 : Int) ^ n * c = 0
    · have : c = 0 := by
        rcases Int.mul_eq_zero.1 hz with h | h
        · exact absurd h (ne_of_gt hpow)
        · exact h
      simp [this]
    · simp only [hz, if_false]
      have := ih hc0 (Dvd.intro c rfl)
      rw [Int.mul_ediv_cancel_left _ (ne_of_gt hpow)] at this
      simpa using this

theorem negativeScaleInt64_exact (k : Nat) {a : Int} (ha : 0 ≤ a)
    (hd : (10 : Int) ^ k ∣ a) : (negativeScaleInt64 a k).1 = a / 10 ^ k := by
  unfold negativeScaleInt64
  by_cases hk : k = 0
  · simp [hk]
  · rw [if_neg hk]
    exact negativeScaleLoop_exact a k ha hd

theorem value_nonneg_of_inUnits {q : Quantity} {unit n : Int}
    (h : q.inUnits unit = some n) (hn : 0 ≤ n) : 0 ≤ q.value := by
  unfold Quantity.inUnits at h
  by_cases hu : unit ≤ q.scale
  · rw [if_pos hu] at h
    have hpos : (0 : Int) < 10 ^ (q.scale - unit).toNat := by positivity
    have hn' : 0 ≤ q.value * 10 ^ (q.scale - unit).toNat := by
      rw [Option.some.inj h]; exact hn
    exact nonneg_of_mul_nonneg_left hn' hpos
  · rw [if_neg hu] at h
    by_cases hm : q.value % 10 ^ (unit - q.scale).toNat = 0
    · rw [if_pos hm] at h
      have hpos : (0 : Int) < 10 ^ (unit - q.scale).toNat := by positivity
      have hn' : 0 ≤ q.value / 10 ^ (unit - q.scale).toNat := by
        rw [Option.some.inj h]; exact hn
      have hmul := Int.ediv_mul_cancel (Int.dvd_of_emod_eq_zero hm)
      rw [← hmul]
      exact Int.mul_nonneg hn' (le_of_lt hpos)
    · rw [if_neg hm] at h
      cases h

theorem ScaledValue_of_inUnits {q : Quantity} {unit n : Int}
    (h : q.inUnits unit = some n) (hn : 0 ≤ n) (hb : n < 2 ^ 63) :
    q.ScaledValue unit = n := by
  have hv := value_nonneg_of_inUnits h hn
  unfold Quantity.inUnits at h
  unfold Quantity.ScaledValue Quantity.AsScaledInt64
  by_cases hu : unit ≤ q.scale
  · rw [if_pos hu] at h
    rw [if_neg (not_lt.2 hu)]
    have hn' := Option.some.inj h
    rw [positiveScaleInt64_exact _ hv (by rw [hn']; exact hb)]
    exact hn'
  · rw [if_neg hu] at h
    rw [if_pos (not_le.1 hu)]
    by_cases hm : q.value % 10 ^ (unit - q.scale).toNat = 0
    · rw [if_pos hm] at h
      rw [negativeScaleInt64_exact _ hv (Int.dvd_of_emod_eq_zero hm)]
      exact Option.some.inj h
    · rw [if_neg hm] at h
      cases h

theorem inUnits_milli_of_bytes {q : Quantity} {n : Int} (h : q.inUnits 0 = some n) :
    q.inUnits (-3) = some (n * 1000) := by
  obtain ⟨v, s⟩ := q
  unfold Quantity.inUnits at h ⊢
  simp only at h ⊢
  by_cases h0 : 0 ≤ s
  · rw [if_pos h0] at h
    rw [if_pos (by omega)]
    have hn := Option.some.inj h
    have he : (s - -3).toNat = (s - 0).toNat + 3 := by omega
    rw [he, pow_add, ← mul_assoc, hn]
    norm_num
  · rw [if_neg h0] at h
    by_cases hm : v % 10 ^ (0 - s).toNat = 0
    · rw [if_pos hm] at h
      have hn := Option.some.inj h
      have hv : v = n * 10 ^ (0 - s).toNat := by
        rw [← hn]; exact (Int.ediv_mul_cancel (Int.dvd_of_emod_eq_zero hm)).symm
      by_cases h3 : -3 ≤ s
      · rw [if_pos h3]
        have he : (0 - s).toNat + (s - -3).toNat = 3 := by omega
        rw [hv, mul_assoc, ← pow_add, he]
        norm_num
      · rw [if_neg h3]
        have he : (0 - s).toNat = 3 + (-3 - s).toNat := by omega
        have hv' : v = n * 1000 * 10 ^ (-3 - s).toNat := by
          rw [hv, he, pow_add]; ring
        have hpos : (0 : Int) < 10 ^ (-3 - s).toNat := by positivity
        rw [if_pos (by rw [hv']; exact Int.mul_emod_left _ _), hv',
          Int.mul_ediv_cancel _ (ne_of_gt hpos)]
    · rw [if_neg hm] at h
      cases h

theorem cpuGauge_of_exactlyHeld {q : Quantity} {n : Int}
    (h : declaredMilliCores q = some n) (h₀ : 0 ≤ n) (hb : n ≤ 2 ^ 53) :
    float64OfInt64 q.MilliValue = n := by
  have h2 : n < 2 ^ 63 := lt_of_le_of_lt hb (by norm_num)
  unfold Quantity.MilliValue
  rw [ScaledValue_of_inUnits h h₀ h2]
  exact float64OfInt64_exact h₀ hb

theorem memGauge_of_exactlyHeld {q : Quantity} {n : Int}
    (h : declaredBytes q = some n) (h₀ : 0 ≤ n) (hb : n ≤ 2 ^ 53) :
    float64OfInt64 (div64 q.MilliValue 1000) = n := by
  have hm := inUnits_milli_of_bytes h
  have h1 : (0 : Int) ≤ n * 1000 := by positivity
  have h2 : n * 1000 < 2 ^ 63 :=
    lt_of_le_of_lt (mul_le_mul_of_nonneg_right hb (by norm_num)) (by norm_num)
  unfold Quantity.MilliValue
  rw [ScaledValue_of_inUnits hm h1 h2]
  unfold div64
  rw [Int.mul_tdiv_cancel _ (by norm_num)]
  exact float64OfInt64_exact h₀ hb

/-! ## Poll cycle lemmas -/

theorem runOnce_ok_registry {kc : Clientset} {w : World} {items : List Pod}
    (h : kc.podList w.listCalls = .ok items) :
    (runOnce kc w).registry = setPods items w.registry := by
  unfold runOnce
  rw [h]

theorem runOnce_error_registry {kc : Clientset} {w : World} {err : String}
    (h : kc.podList w.listCalls = .error err) :
    (runOnce kc w).registry = w.registry := by
  unfold runOnce
  rw [h]

theorem runOnce_listCalls (kc : Clientset) (w : World) :
    (runOnce kc w).listCalls = w.listCalls + 1 := by
  unfold runOnce
  cases kc.podList w.listCalls <;> rfl

theorem gauge_setPods (items : List Pod) (r : Registry) (f : Family) (k : List String) :
    (setPods items r).gauge f k
      = match lastWrite f k (updates items) with
        | some v => some v
        | none => r.gauge f k := by
  rw [setPods_eq_foldl, gauge_foldl]

theorem gauge_setPods_of_mem {items : List Pod} (hd : (labelTriples items).Nodup)
    (r : Registry) {u : Update} (hu : u ∈ updates items) :
    (setPods items r).gauge u.family u.labels = some u.value := by
  rw [gauge_setPods, lastWrite_of_nodup (nodup_keys_of_nodup_triples hd) hu]

theorem gauge_setPods_of_not_mem {items : List Pod} (r : Registry) (f : Family)
    {k : List String} (hk : k ∉ labelTuples items) :
    (setPods items r).gauge f k = r.gauge f k := by
  rw [gauge_setPods, lastWrite_eq_none]
  rw [key_mem_iff_labelTuples]
  exact hk

theorem gauge_setPods_isSome {items : List Pod} (r : Registry) {f : Family}
    {k : List String} {v : Int} (h : r.gauge f k = some v) :
    ∃ v', (setPods items r).gauge f k = some v' := by
  rw [gauge_setPods]
  cases lastWrite f k (updates items) with
  | some x => exact ⟨x, rfl⟩
  | none => exact ⟨v, h⟩

theorem setPods_idem (items : List Pod) (r : Registry) :
    setPods items (setPods items r) = setPods items r := by
  apply Registry.ext_gauge
  intro f k
  rw [gauge_setPods items (setPods items r), gauge_setPods items r]
  cases lastWrite f k (updates items) <;> rfl

theorem runOnce_gauge_stale (kc : Clientset) (w : World) (f : Family) (k : List String)
    (hk : ∀ items, kc.podList w.listCalls = .ok items → k ∉ labelTuples items) :
    (runOnce kc w).registry.gauge f k = w.registry.gauge f k := by
  cases hl : kc.podList w.listCalls with
  | error err => rw [runOnce_error_registry hl]
  | ok items => rw [runOnce_ok_registry hl, gauge_setPods_of_not_mem _ _ (hk items hl)]

theorem iterate_gauge_stale (kc : Clientset) (f : Family) (k : List String)
    (n : Nat) (w : World)
    (hk : ∀ i items, w.listCalls ≤ i → kc.podList i = .ok items → k ∉ labelTuples items) :
    ((runOnce kc)^[n] w).registry.gauge f k = w.registry.gauge f k := by
  induction n generalizing w with
  | zero => rfl
  | succ n ih =>
    rw [Function.iterate_succ_apply, ih, runOnce_gauge_stale kc w f k
      (fun items h => hk _ items (le_refl _) h)]
    intro i items hi h
    rw [runOnce_listCalls] at hi
    exact hk i items (by omega) h

theorem map_key_containerUpdates_eq (pod : Pod) (c : Container) :
    (containerUpdates pod c).map Update.key = tripleKeys (pod.Namespace, pod.Name, c.Name) :=
  rfl

theorem labels_of_mem_containerUpdates {pod : Pod} {c : Container} {u : Update}
    (hu : u ∈ containerUpdates pod c) :
    u.labels = ["request", pod.Namespace, pod.Name, c.Name] ∨
    u.labels = ["limit", pod.Namespace, pod.Name, c.Name] := by
  simp only [containerUpdates, List.mem_cons, List.mem_singleton, List.mem_nil_iff,
    or_false] at hu
  rcases hu with rfl | rfl | rfl | rfl <;> simp

theorem zero_gauge_value : float64OfInt64 Quantity.zero.MilliValue = 0 ∧
    float64OfInt64 (div64 Quantity.zero.MilliValue 1000) = 0 := by
  constructor <;> decide

theorem cpu_of_lookup_none {rl : ResourceList} (h : rl.lookup "cpu" = none) :
    float64OfInt64 (ResourceList.Cpu rl).MilliValue = 0 := by
  unfold ResourceList.Cpu
  rw [h]
  exact zero_gauge_value.1

theorem memory_of_lookup_none {rl : ResourceList} (h : rl.lookup "memory" = none) :
    float64OfInt64 (div64 (ResourceList.Memory rl).MilliValue 1000) = 0 := by
  unfold ResourceList.Memory
  rw [h]
  exact zero_gauge_value.2

/-! ## The claims -/

/-- C1, as stated, fails: the pod list holding only `hugeCpuPod` has pairwise
distinct triples and declares a CPU request of `9007199254740993` milli-cores, yet
after `runOnce` the gauge `cpu_milli` of that request holds `9007199254740992`,
the nearest `float64`. Hence the four entries do not equal the declared values for
every pod list. -/
theorem runOnce_entry_differs_from_declared :
    (labelTriples [hugeCpuPod]).Nodup ∧
    declaredMilliCores (ResourceList.Cpu [("cpu", ⟨9007199254740993, -3⟩)])
      = some 9007199254740993 ∧
    (runOnce (Clientset.const [hugeCpuPod]) World.start).registry.gauge .cpu_milli
      ["request", "prod", "huge", "app"] = some 9007199254740992 ∧
    ¬ (∀ (kc : Clientset) (w : World) (items : List Pod),
        kc.podList w.listCalls = .ok items → (labelTriples items).Nodup →
        ∀ pod ∈ items, ∀ c ∈ pod.Spec.Containers,
          (runOnce kc w).registry.gauge .cpu_milli
              ["request", pod.Namespace, pod.Name, c.Name]
            = declaredMilliCores c.Resources.Requests.Cpu ∧
          (runOnce kc w).registry.gauge .memory_bytes
              ["request", pod.Namespace, pod.Name, c.Name]
            = declaredBytes c.Resources.Requests.Memory ∧
          (runOnce kc w).registry.gauge .cpu_milli
              ["limit", pod.Namespace, pod.Name, c.Name]
            = declaredMilliCores c.Resources.Limits.Cpu ∧
          (runOnce kc w).registry.gauge .memory_bytes
              ["limit", pod.Namespace, pod.Name, c.Name]
            = declaredBytes c.Resources.Limits.Memory) := by
  refine ⟨by decide, by decide, by decide, ?_⟩
  intro h
  have h₁ := (h (Clientset.const [hugeCpuPod]) World.start [hugeCpuPod] rfl (by decide)
    hugeCpuPod (List.mem_singleton.2 rfl)
    ⟨"app", ⟨[], [("cpu", ⟨9007199254740993, -3⟩)]⟩⟩ (List.mem_singleton.2 rfl)).1
  exact absurd h₁ (by decide)

/-- C1, amended: when the list call succeeds with pairwise distinct (namespace,
pod name, container name) triples, then whatever the registry held before, after
`runOnce` every container of every listed pod has its four entries, and each of
them equals the declared value (CPU in milli-cores, memory in bytes) whenever that
declared value is a whole number between `0` and `2 ^ 53`. -/
theorem runOnce_entries (kc : Clientset) (w : World) (items : List Pod)
    (hl : kc.podList w.listCalls = .ok items) (hd : (labelTriples items).Nodup)
    (pod : Pod) (hp : pod ∈ items) (c : Container) (hc : c ∈ pod.Spec.Containers) :
    ((∃ v, (runOnce kc w).registry.gauge .cpu_milli
        ["request", pod.Namespace, pod.Name, c.Name] = some v) ∧
      (∃ v, (runOnce kc w).registry.gauge .memory_bytes
        ["request", pod.Namespace, pod.Name, c.Name] = some v) ∧
      (∃ v, (runOnce kc w).registry.gauge .cpu_milli
        ["limit", pod.Namespace, pod.Name, c.Name] = some v) ∧
      (∃ v, (runOnce kc w).registry.gauge .memory_bytes
        ["limit", pod.Namespace, pod.Name, c.Name] = some v)) ∧
    (exactlyHeld (declaredMilliCores c.Resources.Requests.Cpu) →
      (runOnce kc w).registry.gauge .cpu_milli ["request", pod.Namespace, pod.Name, c.Name]
        = declaredMilliCores c.Resources.Requests.Cpu) ∧
    (exactlyHeld (declaredBytes c.Resources.Requests.Memory) →
      (runOnce kc w).registry.gauge .memory_bytes ["request", pod.Namespace, pod.Name, c.Name]
        = declaredBytes c.Resources.Requests.Memory) ∧
    (exactlyHeld (declaredMilliCores c.Resources.Limits.Cpu) →
      (runOnce kc w).registry.gauge .cpu_milli ["limit", pod.Namespace, pod.Name, c.Name]
        = declaredMilliCores c.Resources.Limits.Cpu) ∧
    (exactlyHeld (declaredBytes c.Resources.Limits.Memory) →
      (runOnce kc w).registry.gauge .memory_bytes ["limit", pod.Namespace, pod.Name, c.Name]
        = declaredBytes c.Resources.Limits.Memory) := by
  rw [runOnce_ok_registry hl]
  have h₁ := gauge_setPods_of_mem hd w.registry (mem_updates hp hc
    (u := ⟨.cpu_milli, ["request", pod.Namespace, pod.Name, c.Name],
      float64OfInt64 c.Resources.Requests.Cpu.MilliValue⟩) (by simp [containerUpdates]))
  have h₂ := gauge_setPods_of_mem hd w.registry (mem_updates hp hc
    (u := ⟨.memory_bytes, ["request", pod.Namespace, pod.Name, c.Name],
      float64OfInt64 (div64 c.Resources.Requests.Memory.MilliValue 1000)⟩)
    (by simp [containerUpdates]))
  have h₃ := gauge_setPods_of_mem hd w.registry (mem_updates hp hc
    (u := ⟨.cpu_milli, ["limit", pod.Namespace, pod.Name, c.Name],
      float64OfInt64 c.Resources.Limits.Cpu.MilliValue⟩) (by simp [containerUpdates]))
  have h₄ := gauge_setPods_of_mem hd w.registry (mem_updates hp hc
    (u := ⟨.memory_bytes, ["limit", pod.Namespace, pod.Name, c.Name],
      float64OfInt64 (div64 c.Resources.Limits.Memory.MilliValue 1000)⟩)
    (by simp [containerUpdates]))
  simp only at h₁ h₂ h₃ h₄
  refine ⟨⟨⟨_, h₁⟩, ⟨_, h₂⟩, ⟨_, h₃⟩, ⟨_, h₄⟩⟩, ?_, ?_, ?_, ?_⟩
  · rintro ⟨n, hn, h₀, hb⟩
    rw [h₁, hn, cpuGauge_of_exactlyHeld hn h₀ hb]
  · rintro ⟨n, hn, h₀, hb⟩
    rw [h₂, hn, memGauge_of_exactlyHeld hn h₀ hb]
  · rintro ⟨n, hn, h₀, hb⟩
    rw [h₃, hn, cpuGauge_of_exactlyHeld hn h₀ hb]
  · rintro ⟨n, hn, h₀, hb⟩
    rw [h₄, hn, memGauge_of_exactlyHeld hn h₀ hb]

/-- C1 at the specification's example: pod `web-1` in namespace
`prod`, container `app`, gives 500, 268435456, 1000 and 536870912. -/
theorem runOnce_entries_witness :
    (runOnce (Clientset.const [web1]) World.start).registry.gauge .cpu_milli
      ["request", "prod", "web-1", "app"] = some 500 ∧
    (runOnce (Clientset.const [web1]) World.start).registry.gauge .memory_bytes
      ["request", "prod", "web-1", "app"] = some 268435456 ∧
    (runOnce (Clientset.const [web1]) World.start).registry.gauge .cpu_milli
      ["limit", "prod", "web-1", "app"] = some 1000 ∧
    (runOnce (Clientset.const [web1]) World.start).registry.gauge .memory_bytes
      ["limit", "prod", "web-1", "app"] = some 536870912 := by
  have h := runOnce_entries (Clientset.const [web1]) World.start [web1] rfl (by decide)
    web1 (List.mem_singleton.2 rfl)
    ⟨"app", ⟨[("cpu", ⟨1000, -3⟩), ("memory", ⟨536870912, 0⟩)],
      [("cpu", ⟨500, -3⟩), ("memory", ⟨268435456, 0⟩)]⟩⟩
    (List.mem_singleton.2 rfl)
  exact ⟨h.2.1 ⟨500, by decide, by decide, by decide⟩,
    h.2.2.1 ⟨268435456, by decide, by decide, by decide⟩,
    h.2.2.2.1 ⟨1000, by decide, by decide, by decide⟩,
    h.2.2.2.2 ⟨536870912, by decide, by decide, by decide⟩⟩

/-- C2 on the code: for a memory request of `10P`, which is `10 ^ 16` bytes by
`Value()` and by its decimal notation, `MilliValue()` overflows to `0` and
`runOnce` writes `0`; for a memory limit of `1500m`, where `Value()` is `2`,
`runOnce` writes `1`. Hence `MilliValue() / 1000` is not `Value()` for every
quantity. -/
theorem memory_gauge_is_not_value :
    Quantity.Value ⟨10, 15⟩ = 10000000000000000 ∧
    declaredBytes ⟨10, 15⟩ = some 10000000000000000 ∧
    Quantity.MilliValue ⟨10, 15⟩ = 0 ∧
    (runOnce (Clientset.const [bigMemPod]) World.start).registry.gauge .memory_bytes
      ["request", "prod", "big", "app"] = some 0 ∧
    Quantity.Value ⟨1500, -3⟩ = 2 ∧
    (runOnce (Clientset.const [bigMemPod]) World.start).registry.gauge .memory_bytes
      ["limit", "prod", "big", "app"] = some 1 ∧
    ¬ (∀ q : Quantity, inInt64 q.value → div64 q.MilliValue 1000 = q.Value) := by
  refine ⟨by decide, by decide, by decide, by decide, by decide, by decide, ?_⟩
  intro h
  exact absurd (h ⟨10, 15⟩ (by decide)) (by decide)

/-- C3: when the list call fails, `runOnce` leaves both gauge families exactly as
they were, has made exactly one list call, has added exactly one log line, and
hands back to its caller a world and no error. -/
theorem runOnce_list_error (kc : Clientset) (w : World) (err : String)
    (h : kc.podList w.listCalls = .error err) :
    (runOnce kc w).registry = w.registry ∧
    (runOnce kc w).listCalls = w.listCalls + 1 ∧
    (runOnce kc w).log = w.log ++ ["[ERROR] " ++ err] := by
  unfold runOnce
  rw [h]
  exact ⟨rfl, rfl, rfl⟩

/-- C3 at a concrete input: after a successful poll of `web-1`, a poll against a
failing API server changes no gauge. -/
theorem runOnce_list_error_witness :
    (runOnce (Clientset.failing "connection refused")
        (runOnce (Clientset.const [web1]) World.start)).registry
      = (runOnce (Clientset.const [web1]) World.start).registry ∧
    (runOnce (Clientset.failing "connection refused")
        (runOnce (Clientset.const [web1]) World.start)).listCalls = 2 ∧
    (runOnce (Clientset.failing "connection refused")
        (runOnce (Clientset.const [web1]) World.start)).log
      = ["[ERROR] connection refused"] :=
  runOnce_list_error (Clientset.failing "connection refused")
    (runOnce (Clientset.const [web1]) World.start) "connection refused" rfl

/-- C4: two poll cycles in a row that both receive the pod list `items`, with or
without repeated label triples, leave the same registry as the first of them. -/
theorem runOnce_idempotent (kc : Clientset) (w : World) (items : List Pod)
    (h₁ : kc.podList w.listCalls = .ok items)
    (h₂ : kc.podList (w.listCalls + 1) = .ok items) :
    (runOnce kc (runOnce kc w)).registry = (runOnce kc w).registry := by
  have h₂' : kc.podList (runOnce kc w).listCalls = .ok items := by
    rw [runOnce_listCalls]; exact h₂
  rw [runOnce_ok_registry h₂', runOnce_ok_registry h₁, setPods_idem]

/-- C4 at a concrete input: a list in which `web-1` occurs twice, and `bigMemPod`
between the two. -/
theorem runOnce_idempotent_witness :
    (runOnce (Clientset.const [web1, bigMemPod, web1])
        (runOnce (Clientset.const [web1, bigMemPod, web1]) World.start)).registry
      = (runOnce (Clientset.const [web1, bigMemPod, web1]) World.start).registry :=
  runOnce_idempotent (Clientset.const [web1, bigMemPod, web1]) World.start
    [web1, bigMemPod, web1] rfl rfl

/-- C5: an entry that is present before `runOnce` is present after it; it keeps
its value when its label tuple belongs to no container of the list, and also when
the list call fails; and it keeps its value through a cycle followed by any number
of ticks of the poller as long as no list returned from now on has a container
with that label tuple. -/
theorem runOnce_never_evicts (kc : Clientset) (w : World) (f : Family) (k : List String)
    (v : Int) (h : w.registry.gauge f k = some v) :
    (∃ v', (runOnce kc w).registry.gauge f k = some v') ∧
    ((∀ items, kc.podList w.listCalls = .ok items → k ∉ labelTuples items) →
      (runOnce kc w).registry.gauge f k = some v) ∧
    (∀ ticks,
      (∀ i items, w.listCalls ≤ i → kc.podList i = .ok items → k ∉ labelTuples items) →
      (poller kc ticks w).registry.gauge f k = some v) := by
  refine ⟨?_, ?_, ?_⟩
  · cases hl : kc.podList w.listCalls with
    | error err => exact ⟨v, by rw [runOnce_error_registry hl]; exact h⟩
    | ok items =>
      rw [runOnce_ok_registry hl]
      exact gauge_setPods_isSome _ h
  · intro hk
    rw [runOnce_gauge_stale kc w f k hk]
    exact h
  · intro ticks hk
    unfold poller
    rw [iterate_gauge_stale kc f k _ w hk]
    exact h

/-- C5 at a concrete input: `web-1` is polled once and then deleted; its CPU
request gauge still reads 500 after the next cycle and after a hundred ticks. -/
theorem runOnce_never_evicts_witness :
    (∃ v', (runOnce (Clientset.thenEmpty [web1])
      (runOnce (Clientset.thenEmpty [web1]) World.start)
      ).registry.gauge .cpu_milli ["request", "prod", "web-1", "app"] = some v') ∧
    (runOnce (Clientset.thenEmpty [web1]) (runOnce (Clientset.thenEmpty [web1]) World.start)
      ).registry.gauge .cpu_milli ["request", "prod", "web-1", "app"] = some 500 ∧
    (poller (Clientset.thenEmpty [web1]) 100 (runOnce (Clientset.thenEmpty [web1]) World.start)
      ).registry.gauge .cpu_milli ["request", "prod", "web-1", "app"] = some 500 := by
  have h := runOnce_never_evicts (Clientset.thenEmpty [web1])
    (runOnce (Clientset.thenEmpty [web1]) World.start) .cpu_milli
    ["request", "prod", "web-1", "app"] 500 (by decide)
  refine ⟨h.1, h.2.1 ?_, h.2.2 100 ?_⟩
  · intro items hi
    have : items = [] := by
      simpa [Clientset.thenEmpty, runOnce_listCalls, World.start] using hi.symm
    rw [this]
    simp [labelTuples]
  · intro i items hle hi
    rw [runOnce_listCalls] at hle
    have hne : i ≠ 0 := by
      have : World.start.listCalls = 0 := rfl
      omega
    have : items = [] := by
      simpa [Clientset.thenEmpty, hne] using hi.symm
    rw [this]
    simp [labelTuples]

/-- C6: when `newKubeClient` returns an error, which it does exactly when resolving
the configuration fails or building the client from the resolved configuration
fails, `main` logs the error and exits with status 1, and nothing else happens: no
ticker is created, no poller is started and the server never listens. -/
theorem main_exits_without_client (env : KubeEnv) (args : Args) (err : String)
    (h : newKubeClient env args.kubeContextValue = .error err) :
    ((if args.kubeContextValue = "" then env.InClusterConfig
        else env.ClientConfig args.kubeContextValue) = .error err ∨
      ∃ kubeConfig,
        (if args.kubeContextValue = "" then env.InClusterConfig
          else env.ClientConfig args.kubeContextValue) = .ok kubeConfig ∧
        env.NewForConfig kubeConfig = .error err) ∧
    main env args = [.logPrint ("[ERROR] " ++ err), .osExit 1] ∧
    (∀ e ∈ main env args, e ≠ .goPoller ∧ (∀ d, e ≠ .newTicker d) ∧
      ∀ addr, e ≠ .listenAndServe addr) := by
  have hmain : main env args = [.logPrint ("[ERROR] " ++ err), .osExit 1] := by
    unfold main
    rw [h]
  refine ⟨?_, hmain, ?_⟩
  · unfold newKubeClient at h
    cases hcfg : (if args.kubeContextValue = "" then env.InClusterConfig
        else env.ClientConfig args.kubeContextValue) with
    | error e =>
      rw [hcfg] at h
      have he : e = err := by simpa using h
      left
      rw [he]
    | ok kubeConfig =>
      rw [hcfg] at h
      right
      exact ⟨kubeConfig, rfl, h⟩
  · intro e he
    rw [hmain] at he
    simp only [List.mem_cons, List.mem_singleton, List.mem_nil_iff, or_false] at he
    rcases he with rfl | rfl <;> simp

/-- C6 at a concrete input: started outside a cluster with no context, `main`
logs and exits with status 1. -/
theorem main_exits_without_client_witness :
    main KubeEnv.outsideCluster ⟨none, none⟩
      = [.logPrint "[ERROR] unable to load in-cluster configuration", .osExit 1] :=
  (main_exits_without_client KubeEnv.outsideCluster ⟨none, none⟩
    "unable to load in-cluster configuration" rfl).2.1

/-- C7 on the model of the shutdown: with one request in flight, the schedule
`interruptMidRequest` ends with `main` returned while `Shutdown` has not returned
and the request is still in flight; no step is enabled afterwards, so the request
never completes. Hence it is not true of every schedule that `main` returns only
after `Shutdown` has returned with no request left in flight. -/
theorem main_returns_before_shutdown :
    run interruptMidRequest Proc.start = some Proc.exitedMidRequest ∧
    Proc.exitedMidRequest.mainReturned = true ∧
    Proc.exitedMidRequest.handler ≠ .shutdownReturned ∧
    Proc.exitedMidRequest.inflight = 1 ∧
    (∀ a : Action, step a Proc.exitedMidRequest = none) ∧
    ¬ (∀ schedule p, run schedule Proc.start = some p → p.mainReturned = true →
        p.handler = .shutdownReturned ∧ p.inflight = 0) := by
  have hrun : run interruptMidRequest Proc.start = some Proc.exitedMidRequest := by decide
  refine ⟨hrun, rfl, by decide, rfl, ?_, ?_⟩
  · intro a
    cases a <;> rfl
  · intro h
    exact absurd (h interruptMidRequest Proc.exitedMidRequest hrun rfl).1 (by decide)

/-- C8, as stated, fails: for the `int64` flag value `9223372037` the product
wraps to a negative period, and for the flag value `0` the period is `0`; in both
cases `time.NewTicker` panics and no ticker is created. Hence the period is not
`n * 10 ^ 9` and positive for every `int64` value `n`. -/
theorem tickerPeriod_not_seconds :
    inInt64 9223372037 ∧
    tickerPeriod 9223372037 = -9223372036709551616 ∧
    tickerPeriod 9223372037 ≠ 9223372037 * 10 ^ 9 ∧
    main KubeEnv.healthy ⟨none, some 9223372037⟩
      = [.goPanic "non-positive interval for NewTicker"] ∧
    inInt64 0 ∧ ¬ 0 < tickerPeriod 0 ∧
    main KubeEnv.healthy ⟨none, some 0⟩ = [.goPanic "non-positive interval for NewTicker"] ∧
    ¬ (∀ n : Int, inInt64 n → tickerPeriod n = n * 10 ^ 9 ∧ 0 < tickerPeriod n) := by
  refine ⟨by decide, by decide, by decide, by decide, by decide, by decide, by decide, ?_⟩
  intro h
  exact absurd (h 0 (by decide)).2 (by decide)

/-- C8, amended: for a flag value `n` from 1 to 9223372036 the period is exactly
`n * 10 ^ 9` nanoseconds and positive, and `main`, once it has its client, creates
the ticker with that period; with the flag absent the value is 3600. -/
theorem tickerPeriod_seconds (env : KubeEnv) (kubeContext : Option String) (n : Int)
    (kc : Clientset) (h₁ : 1 ≤ n) (h₂ : n ≤ 9223372036)
    (hk : newKubeClient env (Args.kubeContextValue ⟨kubeContext, some n⟩) = .ok kc) :
    tickerPeriod n = n * 10 ^ 9 ∧ 0 < tickerPeriod n ∧
    Event.newTicker (n * 10 ^ 9) ∈ main env ⟨kubeContext, some n⟩ ∧
    Args.scrapeIntervalValue ⟨kubeContext, none⟩ = 3600 := by
  have hp : tickerPeriod n = n * 10 ^ 9 := by
    unfold tickerPeriod mul64
    rw [wrap64_of_inRange (by norm_num; omega) (by norm_num; omega)]
    norm_num
  have hpos : 0 < tickerPeriod n := by rw [hp]; positivity
  refine ⟨hp, hpos, ?_, rfl⟩
  unfold main
  rw [hk]
  simp only [Args.scrapeIntervalValue, Option.getD_some]
  rw [if_neg (not_le.2 hpos), hp]
  exact List.mem_cons_self _ _

/-- C8 at concrete inputs: the default of one hour, through the flag. -/
theorem tickerPeriod_seconds_witness :
    tickerPeriod 3600 = 3600 * 10 ^ 9 ∧ 0 < tickerPeriod 3600 ∧
    Event.newTicker (3600 * 10 ^ 9) ∈ main KubeEnv.healthy ⟨none, some 3600⟩ ∧
    Args.scrapeIntervalValue ⟨none, none⟩ = 3600 :=
  tickerPeriod_seconds KubeEnv.healthy none 3600 (Clientset.const []) (by decide) (by decide) rfl

/-- C9: in a pod list whose pods are distinct by (namespace, name) and whose
containers are distinct by name within each pod, no two `Set` calls of one
`runOnce` address the same family with the same label tuple: the keys of the
calls, in execution order, have no repetition; two calls with the same key come
from the same pod and the same container and are the same call; and the first
label of every call is `request` or `limit`. -/
theorem updates_keyed_injectively (items : List Pod)
    (hp : (items.map (fun p => (p.Namespace, p.Name))).Nodup)
    (hc : ∀ p ∈ items, (p.Spec.Containers.map (fun c => c.Name)).Nodup) :
    ((updates items).map Update.key).Nodup ∧
    (∀ p₁ ∈ items, ∀ c₁ ∈ p₁.Spec.Containers, ∀ u₁ ∈ containerUpdates p₁ c₁,
      ∀ p₂ ∈ items, ∀ c₂ ∈ p₂.Spec.Containers, ∀ u₂ ∈ containerUpdates p₂ c₂,
        u₁.key = u₂.key → p₁ = p₂ ∧ c₁ = c₂ ∧ u₁ = u₂) ∧
    (∀ u ∈ updates items,
      u.labels.head? = some "request" ∨ u.labels.head? = some "limit") := by
  refine ⟨nodup_keys_of_nodup_triples (nodup_triples_of_distinct hp hc), ?_, ?_⟩
  · intro p₁ hp₁ c₁ hc₁ u₁ hu₁ p₂ hp₂ c₂ hc₂ u₂ hu₂ hkey
    have hl : u₁.labels = u₂.labels := congrArg Prod.snd hkey
    have hlab : p₁.Namespace = p₂.Namespace ∧ p₁.Name = p₂.Name ∧ c₁.Name = c₂.Name := by
      rcases labels_of_mem_containerUpdates hu₁ with h₁ | h₁ <;>
        rcases labels_of_mem_containerUpdates hu₂ with h₂ | h₂ <;>
        · rw [h₁, h₂] at hl
          simp only [List.cons.injEq, and_true] at hl
          exact ⟨hl.2.1, hl.2.2.1, hl.2.2.2⟩
    obtain ⟨hns, hname, hcn⟩ := hlab
    have hpe : p₁ = p₂ :=
      List.inj_on_of_nodup_map hp hp₁ hp₂ (by simp only [hns, hname])
    subst hpe
    have hce : c₁ = c₂ := List.inj_on_of_nodup_map (hc p₁ hp₁) hc₁ hc₂ hcn
    subst hce
    refine ⟨rfl, rfl, ?_⟩
    have hn : ((containerUpdates p₁ c₁).map Update.key).Nodup := by
      rw [map_key_containerUpdates_eq]
      exact nodup_tripleKeys _
    exact List.inj_on_of_nodup_map hn hu₁ hu₂ hkey
  · intro u hu
    unfold updates at hu
    obtain ⟨p, -, hu⟩ := List.mem_flatMap.1 hu
    obtain ⟨c, -, hu⟩ := List.mem_flatMap.1 hu
    rcases labels_of_mem_containerUpdates hu with h | h
    · left; rw [h]; rfl
    · right; rw [h]; rfl

/-- C9 at a concrete input: the three pods `web-1`, `big` and `bare`. -/
theorem updates_keyed_injectively_witness :
    ((updates [web1, bigMemPod, barePod]).map Update.key).Nodup ∧
    (∀ u ∈ updates [web1, bigMemPod, barePod],
      u.labels.head? = some "request" ∨ u.labels.head? = some "limit") :=
  have h := updates_keyed_injectively [web1, bigMemPod, barePod] (by decide)
    (by decide)
  ⟨h.1, h.2.2⟩

/-- C10: after a successful list call every container of every listed pod has all
four entries, whatever it declares. A resource that the container does not declare
is written all the same, with value 0: the `Set` call with value 0 is among the
calls of the cycle, and when the triples of the list are pairwise distinct the
entry reads 0 after the cycle. -/
theorem runOnce_writes_undeclared (kc : Clientset) (w : World) (items : List Pod)
    (hl : kc.podList w.listCalls = .ok items)
    (pod : Pod) (hp : pod ∈ items) (c : Container) (hc : c ∈ pod.Spec.Containers) :
    (∀ f : Family, ∀ t : String, t = "request" ∨ t = "limit" →
      ∃ v, (runOnce kc w).registry.gauge f [t, pod.Namespace, pod.Name, c.Name] = some v) ∧
    (c.Resources.Requests.lookup "cpu" = none →
      (⟨.cpu_milli, ["request", pod.Namespace, pod.Name, c.Name], 0⟩ : Update) ∈ updates items ∧
      ((labelTriples items).Nodup → (runOnce kc w).registry.gauge .cpu_milli
        ["request", pod.Namespace, pod.Name, c.Name] = some 0)) ∧
    (c.Resources.Requests.lookup "memory" = none →
      (⟨.memory_bytes, ["request", pod.Namespace, pod.Name, c.Name], 0⟩ : Update)
        ∈ updates items ∧
      ((labelTriples items).Nodup → (runOnce kc w).registry.gauge .memory_bytes
        ["request", pod.Namespace, pod.Name, c.Name] = some 0)) ∧
    (c.Resources.Limits.lookup "cpu" = none →
      (⟨.cpu_milli, ["limit", pod.Namespace, pod.Name, c.Name], 0⟩ : Update) ∈ updates items ∧
      ((labelTriples items).Nodup → (runOnce kc w).registry.gauge .cpu_milli
        ["limit", pod.Namespace, pod.Name, c.Name] = some 0)) ∧
    (c.Resources.Limits.lookup "memory" = none →
      (⟨.memory_bytes, ["limit", pod.Namespace, pod.Name, c.Name], 0⟩ : Update)
        ∈ updates items ∧
      ((labelTriples items).Nodup → (runOnce kc w).registry.gauge .memory_bytes
        ["limit", pod.Namespace, pod.Name, c.Name] = some 0)) := by
  rw [runOnce_ok_registry hl]
  have m₁ : (⟨.cpu_milli, ["request", pod.Namespace, pod.Name, c.Name],
      float64OfInt64 c.Resources.Requests.Cpu.MilliValue⟩ : Update) ∈ updates items :=
    mem_updates hp hc (by simp [containerUpdates])
  have m₂ : (⟨.memory_bytes, ["request", pod.Namespace, pod.Name, c.Name],
      float64OfInt64 (div64 c.Resources.Requests.Memory.MilliValue 1000)⟩ : Update)
      ∈ updates items :=
    mem_updates hp hc (by simp [containerUpdates])
  have m₃ : (⟨.cpu_milli, ["limit", pod.Namespace, pod.Name, c.Name],
      float64OfInt64 c.Resources.Limits.Cpu.MilliValue⟩ : Update) ∈ updates items :=
    mem_updates hp hc (by simp [containerUpdates])
  have m₄ : (⟨.memory_bytes, ["limit", pod.Namespace, pod.Name, c.Name],
      float64OfInt64 (div64 c.Resources.Limits.Memory.MilliValue 1000)⟩ : Update)
      ∈ updates items :=
    mem_updates hp hc (by simp [containerUpdates])
  refine ⟨?_, ?_, ?_, ?_, ?_⟩
  · intro f t ht
    rw [gauge_setPods]
    cases f with
    | cpu_milli =>
      rcases ht with rfl | rfl
      · obtain ⟨v, hv⟩ := lastWrite_isSome_of_mem m₁
        exact ⟨v, by simp only at hv; rw [hv]⟩
      · obtain ⟨v, hv⟩ := lastWrite_isSome_of_mem m₃
        exact ⟨v, by simp only at hv; rw [hv]⟩
    | memory_bytes =>
      rcases ht with rfl | rfl
      · obtain ⟨v, hv⟩ := lastWrite_isSome_of_mem m₂
        exact ⟨v, by simp only at hv; rw [hv]⟩
      · obtain ⟨v, hv⟩ := lastWrite_isSome_of_mem m₄
        exact ⟨v, by simp only at hv; rw [hv]⟩
  · intro h
    rw [cpu_of_lookup_none h] at m₁
    exact ⟨m₁, fun hd => gauge_setPods_of_mem hd w.registry m₁⟩
  · intro h
    rw [memory_of_lookup_none h] at m₂
    exact ⟨m₂, fun hd => gauge_setPods_of_mem hd w.registry m₂⟩
  · intro h
    rw [cpu_of_lookup_none h] at m₃
    exact ⟨m₃, fun hd => gauge_setPods_of_mem hd w.registry m₃⟩
  · intro h
    rw [memory_of_lookup_none h] at m₄
    exact ⟨m₄, fun hd => gauge_setPods_of_mem hd w.registry m₄⟩

/-- C10 at a concrete input: `barePod` declares nothing and gets four entries
of value 0. -/
theorem runOnce_writes_undeclared_witness :
    (runOnce (Clientset.const [web1, barePod]) World.start).registry.gauge .cpu_milli
      ["request", "dev", "bare", "main"] = some 0 ∧
    (runOnce (Clientset.const [web1, barePod]) World.start).registry.gauge .memory_bytes
      ["request", "dev", "bare", "main"] = some 0 ∧
    (runOnce (Clientset.const [web1, barePod]) World.start).registry.gauge .cpu_milli
      ["limit", "dev", "bare", "main"] = some 0 ∧
    (runOnce (Clientset.const [web1, barePod]) World.start).registry.gauge .memory_bytes
      ["limit", "dev", "bare", "main"] = some 0 := by
  have h := runOnce_writes_undeclared (Clientset.const [web1, barePod]) World.start
    [web1, barePod] rfl barePod (by decide) ⟨"main", ⟨[], []⟩⟩ (by decide)
  exact ⟨(h.2.1 rfl).2 (by decide), (h.2.2.1 rfl).2 (by decide),
    (h.2.2.2.1 rfl).2 (by decide), (h.2.2.2.2 rfl).2 (by decide)⟩

end Scraper
